import Mathlib

/-!
Shallow embedding of the FER_bac backend (src/backend/emotion_detector.py and
src/backend/main.py) together with proofs of its specified properties.

Modelling conventions:
* a decoded video frame is a list of rows of BGR pixels (numpy ndarray of shape H x W x 3);
* the OpenCV cascade call and the Keras preprocessing-plus-forward pass are black boxes of
  the environment; they are modelled as fields of the EmotionDetector structure returning
  Except String (the error carries the Python exception message), so that Python
  exceptions raised inside them are explicit values;
* Python float scores are modelled as rationals;
* a video source is Option (List Frame): none models a path cv2.VideoCapture cannot open.
-/

namespace FERBac

/-- One BGR pixel of a frame. -/
abbrev Pixel := Nat × Nat × Nat

/-- A decoded raster frame: rows of pixels (numpy ndarray of shape H x W x 3). -/
structure Frame where
  data : List (List Pixel)
deriving Repr, DecidableEq

/-- Total number of scalar entries of the frame array, as numpy ndarray.size
(three channels per pixel). -/
def Frame.size (f : Frame) : Nat := 3 * (f.data.map List.length).sum

/-- A face bounding box (x, y, width, height) as returned by detectMultiScale. -/
structure BBox where
  x : Nat
  y : Nat
  w : Nat
  h : Nat
deriving Repr, DecidableEq

/-- The sort key used at emotion_detector.py line 173: b[2] * b[3], that is width times
height. -/
def BBox.area (b : BBox) : Nat := b.w * b.h

/-- Python slicing l[a:b] with nonnegative bounds: elements at indices a to b-1, clamped
to the list length. -/
def npSlice (l : List α) (a b : Nat) : List α := (l.take b).drop a

/-- Embedding of EmotionDetector._crop_face: frame[y:y+h, x:x+w]. -/
def crop_face (frame : Frame) (b : BBox) : Frame :=
  Frame.mk ((npSlice frame.data b.y (b.y + b.h)).map (fun row => npSlice row b.x (b.x + b.w)))

/-- The default emotion label list of EmotionDetectorSettings.keras_emotions. -/
def default_keras_emotions : List String :=
  ["angry", "disgust", "fear", "happy", "sad", "surprise", "neutral", "contempt"]

/-- Embedding of the EmotionDetector class. The cascade field models the body of
detect_faces (cvtColor plus detectMultiScale); the predict field models the body of the
try block of detect_emotion up to and including model.predict (resize, cvtColor,
preprocess_input, forward pass). Both may raise, which is modelled by Except.error
carrying the exception message. -/
structure EmotionDetector where
  keras_emotions : List String
  cascade : Frame → Except String (List BBox)
  predict : Frame → Except String (List ℚ)

/-- Embedding of EmotionDetector.detect_faces: the cascade black box applied to the
frame. -/
def detect_faces (d : EmotionDetector) (frame : Frame) : Except String (List BBox) :=
  d.cascade frame

/-- Result dictionary of detect_emotion, before analyze_frame adds the frame index.
Option none models an absent dictionary key. -/
structure EmoResult where
  emotion : String
  confidence : ℚ
  scores : Option (List (String × ℚ))
  error : Option String
deriving Repr, DecidableEq

/-- Result dictionary of analyze_frame. Option none models an absent dictionary key. -/
structure FrameResult where
  frame_index : Nat
  emotion : String
  confidence : ℚ
  scores : Option (List (String × ℚ))
  error : Option String
deriving Repr, DecidableEq

/-- Running state of np.argmax over a list: i is the index of the next element, bi the
index of the current best and bv its value; a later element replaces the best only when
strictly greater, so the first occurrence of the maximum wins. -/
def argmaxAux : Nat → Nat → ℚ → List ℚ → Nat
  | _, bi, _, [] => bi
  | i, bi, bv, s :: rest =>
    if bv < s then argmaxAux (i + 1) i s rest else argmaxAux (i + 1) bi bv rest

/-- Embedding of int(np.argmax(prediction)): index of the first occurrence of the
maximum. On an empty array numpy raises; detect_emotion_body models that case
separately, so the value returned here for [] is never used. -/
def np_argmax : List ℚ → Nat
  | [] => 0
  | s :: rest => argmaxAux 1 0 s rest

/-- Body of the try block of EmotionDetector.detect_emotion: predict, argmax, label
lookup, confidence extraction and the label-to-score zip. The two Except.error cases
model the numpy exception on an empty prediction vector and the Python IndexError when
the argmax index falls outside the configured label list. -/
def detect_emotion_body (d : EmotionDetector) (face_img : Frame) : Except String EmoResult :=
  match d.predict face_img with
  | Except.error e => Except.error e
  | Except.ok prediction =>
    match prediction with
    | [] => Except.error "attempt to get argmax of an empty sequence"
    | p0 :: ps =>
      match d.keras_emotions.get? (np_argmax (p0 :: ps)) with
      | none => Except.error "list index out of range"
      | some emotion =>
        Except.ok
          { emotion := emotion
            confidence := (p0 :: ps).getD (np_argmax (p0 :: ps)) 0
            scores := some (d.keras_emotions.zip (p0 :: ps))
            error := none }

/-- Embedding of EmotionDetector.detect_emotion: the try block with its except clause,
which converts any exception into the error dictionary. -/
def detect_emotion (d : EmotionDetector) (face_img : Frame) : EmoResult :=
  match detect_emotion_body d face_img with
  | Except.ok r => r
  | Except.error e => { emotion := "error", confidence := 0, scores := none, error := some e }

/-- Embedding of max(faces, key=lambda b: b[2] * b[3]) on a nonempty list: CPython max
iterates keeping the current champion and replaces it only when the key is strictly
greater, so ties keep the earliest element. -/
def py_max_area : BBox → List BBox → BBox
  | acc, [] => acc
  | acc, b :: rest => py_max_area (if acc.area < b.area then b else acc) rest

/-- Attaches the frame index to a detect_emotion result, as the assignment
result["frame_index"] = frame_idx in analyze_frame. -/
def withIndex (idx : Nat) (r : EmoResult) : FrameResult :=
  { frame_index := idx, emotion := r.emotion, confidence := r.confidence,
    scores := r.scores, error := r.error }

/-- Embedding of EmotionDetector.analyze_frame: face detection, largest-face selection,
degenerate-crop fallback, classification, and the surrounding try-except that converts
any exception into the error dictionary. -/
def analyze_frame (d : EmotionDetector) (frame : Frame) (frame_idx : Nat) : FrameResult :=
  match detect_faces d frame with
  | Except.error e =>
    { frame_index := frame_idx, emotion := "error", confidence := 0,
      scores := none, error := some e }
  | Except.ok [] =>
    { frame_index := frame_idx, emotion := "no_face_detected", confidence := 0,
      scores := none, error := none }
  | Except.ok (f0 :: rest) =>
    let face := crop_face frame (py_max_area f0 rest)
    if face.size = 0 then
      { frame_index := frame_idx, emotion := "no_face_detected", confidence := 0,
        scores := none, error := none }
    else
      withIndex frame_idx (detect_emotion d face)

/-- Loop body of EmotionDetector.analyze_frames: enumerate(frames) starting at idx. -/
def analyze_frames_go (d : EmotionDetector) (idx : Nat) : List Frame → List FrameResult
  | [] => []
  | f :: rest => analyze_frame d f idx :: analyze_frames_go d (idx + 1) rest

/-- Embedding of EmotionDetector.analyze_frames. -/
def analyze_frames (d : EmotionDetector) (frames : List Frame) : List FrameResult :=
  analyze_frames_go d 0 frames

/-- Read loop of EmotionDetector.extract_frames, with frame_count as the counter. The
explicit zero-interval case models the Python ZeroDivisionError raised by
frame_count % interval; it fires on the first decoded frame, so a zero-length video
never reaches it, exactly as in the source. -/
def extract_frames_loop (interval : Nat) : List Frame → Nat → Except String (List Frame)
  | [], _ => Except.ok []
  | f :: rest, frame_count =>
    if interval = 0 then Except.error "integer division or modulo by zero"
    else if frame_count % interval = 0 then
      (extract_frames_loop interval rest (frame_count + 1)).map (f :: ·)
    else extract_frames_loop interval rest (frame_count + 1)

/-- Embedding of EmotionDetector.extract_frames driven to completion by a consumer that
collects every yielded frame, as list(...) does in analyze_video. The none case models
cv2.VideoCapture failing to open the path, on which the source raises RuntimeError. -/
def extract_frames (video : Option (List Frame)) (interval : Nat) : Except String (List Frame) :=
  match video with
  | none => Except.error "Cannot open video"
  | some frames => extract_frames_loop interval frames 0

/-- Embedding of EmotionDetector.analyze_video: collect the sampled frames, then analyze
them; any exception from the generator propagates. -/
def analyze_video (d : EmotionDetector) (video : Option (List Frame)) (interval : Nat) :
    Except String (List FrameResult) :=
  (extract_frames video interval).map (analyze_frames d)

/-- Payload stored under the data key of a job record in main.py: the analysis list on
success, or the error dictionary built in the except clause of _run. -/
inductive JobData where
  | results : List FrameResult → JobData
  | errorPayload : String → JobData
deriving Repr, DecidableEq

/-- One entry of the _job_results store of main.py. Option none models data being the
Python None. -/
structure JobRecord where
  status : String
  data : Option JobData
deriving Repr, DecidableEq

/-- The record written by the analyze_video route at submission time:
_job_results[job_id] = status queued, data None. -/
def submitRecord : JobRecord := { status := "queued", data := none }

/-- The record written by _run after the job body finishes: status done with the
analysis list on success, status error with the error payload when any exception was
raised (including a video that cannot be opened). -/
def runRecord (d : EmotionDetector) (video : Option (List Frame)) (interval : Nat) :
    JobRecord :=
  match analyze_video d video interval with
  | Except.ok rs => { status := "done", data := some (JobData.results rs) }
  | Except.error e => { status := "error", data := some (JobData.errorPayload e) }

/-- The successive values a job takes in the _job_results store: the submission write
followed by the single terminal write of _run. -/
def jobTrace (d : EmotionDetector) (video : Option (List Frame)) (interval : Nat) :
    List JobRecord :=
  [submitRecord, runRecord d video interval]

/-- A job accepted by the analyzeVideo route, carrying the frame_interval value the
route passed to _run. -/
structure SubmittedJob where
  record : JobRecord
  interval : Nat
deriving Repr, DecidableEq

/-- Embedding of the analyzeVideo route of main.py for a request whose JSON carries a
filename and a frame_interval: when the file is found the route records a queued job and
schedules _run with the interval exactly as received; the interval value is never
validated and never affects acceptance. -/
def analyze_video_route (file_found : Bool) (frame_interval : Nat) : Option SubmittedJob :=
  if file_found then some { record := submitRecord, interval := frame_interval } else none

/-- Observable events of the extract_frames generator body: a yield of one frame, or the
execution of cap.release(). -/
inductive GenEvent where
  | yielded : Frame → GenEvent
  | released : GenEvent
deriving Repr, DecidableEq

/-- Event trace of the extract_frames generator body when it is driven to completion:
the loop yields the selected frames, and cap.release() runs after the loop exits at end
of stream. When interval is zero the ZeroDivisionError aborts the body before the
release line, so no released event occurs. -/
def extract_frames_events (interval : Nat) : List Frame → Nat → List GenEvent
  | [], _ => [GenEvent.released]
  | f :: rest, frame_count =>
    if interval = 0 then []
    else if frame_count % interval = 0 then
      GenEvent.yielded f :: extract_frames_events interval rest (frame_count + 1)
    else extract_frames_events interval rest (frame_count + 1)

/-- Events actually executed when the consumer requests only k items and then abandons
the generator. CPython runs no generator code before the first request, suspends the
body at each yield, and on close raises GeneratorExit at the suspended yield; the body
of extract_frames has no try-finally, so nothing after the k-th yield executes. A
released event positioned before the k-th yield does execute, and a consumer that
requests more items than the trace can yield drives the body to completion. -/
def abandonEvents : List GenEvent → Nat → List GenEvent
  | _, 0 => []
  | [], _ + 1 => []
  | GenEvent.yielded f :: rest, k + 1 => GenEvent.yielded f :: abandonEvents rest k
  | GenEvent.released :: rest, k + 1 => GenEvent.released :: abandonEvents rest (k + 1)

/-- When no later element strictly exceeds the running best value, argmaxAux keeps the
running best index. -/
lemma argmaxAux_of_forall_le (rest : List ℚ) : ∀ (i bi : Nat) (bv : ℚ),
    (∀ x ∈ rest, x ≤ bv) → argmaxAux i bi bv rest = bi := by
  induction rest with
  | nil => intro i bi bv _; rfl
  | cons s t ih =>
    intro i bi bv h
    have hs : s ≤ bv := h s (List.mem_cons_self s t)
    simp only [argmaxAux, if_neg (not_lt.mpr hs)]
    exact ih (i + 1) bi bv (fun x hx => h x (List.mem_cons_of_mem s hx))

/-- When some later element strictly exceeds the running best value, argmaxAux returns
the position of the first occurrence of the maximum of the remaining elements. -/
lemma argmaxAux_of_exists_lt (rest : List ℚ) : ∀ (i bi : Nat) (bv : ℚ),
    (∃ x ∈ rest, bv < x) →
    ∃ k v, rest.get? k = some v ∧ argmaxAux i bi bv rest = i + k ∧ bv < v ∧
      (∀ x ∈ rest, x ≤ v) ∧ (∀ j, j < k → ∀ x, rest.get? j = some x → x < v) := by
  induction rest with
  | nil => intro i bi bv h; obtain ⟨x, hx, _⟩ := h; exact absurd hx (List.not_mem_nil x)
  | cons s t ih =>
    intro i bi bv h
    by_cases hsv : bv < s
    · simp only [argmaxAux, if_pos hsv]
      by_cases ht : ∃ x ∈ t, s < x
      · obtain ⟨k, v, hget, heq, hlt, hmax, hfirst⟩ := ih (i + 1) i s ht
        refine ⟨k + 1, v, ?_, ?_, ?_, ?_, ?_⟩
        · simpa using hget
        · omega
        · exact hsv.trans hlt
        · intro x hx
          rcases List.mem_cons.mp hx with rfl | hx
          · exact hlt.le
          · exact hmax x hx
        · intro j hj x hxj
          match j with
          | 0 =>
            simp only [List.get?_cons_zero, Option.some.injEq] at hxj
            exact hxj ▸ hlt
          | j + 1 =>
            exact hfirst j (by omega) x (by simpa using hxj)
      · push_neg at ht
        refine ⟨0, s, rfl, ?_, hsv, ?_, ?_⟩
        · rw [argmaxAux_of_forall_le t (i + 1) i s ht]; omega
        · intro x hx
          rcases List.mem_cons.mp hx with rfl | hx
          · exact le_refl x
          · exact ht x hx
        · intro j hj; omega
    · have hsle : s ≤ bv := not_lt.mp hsv
      have ht : ∃ x ∈ t, bv < x := by
        obtain ⟨x, hx, hbx⟩ := h
        rcases List.mem_cons.mp hx with rfl | hx
        · exact absurd hbx hsv
        · exact ⟨x, hx, hbx⟩
      obtain ⟨k, v, hget, heq, hlt, hmax, hfirst⟩ := ih (i + 1) bi bv ht
      simp only [argmaxAux, if_neg hsv]
      refine ⟨k + 1, v, ?_, ?_, hlt, ?_, ?_⟩
      · simpa using hget
      · omega
      · intro x hx
        rcases List.mem_cons.mp hx with rfl | hx
        · exact hsle.trans hlt.le
        · exact hmax x hx
      · intro j hj x hxj
        match j with
        | 0 =>
          simp only [List.get?_cons_zero, Option.some.injEq] at hxj
          exact hxj ▸ (lt_of_le_of_lt hsle hlt)
        | j + 1 =>
          exact hfirst j (by omega) x (by simpa using hxj)

/-- The value at the index computed by np_argmax is a maximum of the list, and every
element at a strictly earlier index is strictly smaller: the first maximum wins. -/
lemma np_argmax_spec (l : List ℚ) (hl : l ≠ []) :
    ∃ v, l.get? (np_argmax l) = some v ∧ (∀ x ∈ l, x ≤ v) ∧
      (∀ j, j < np_argmax l → ∀ x, l.get? j = some x → x < v) := by
  match l with
  | [] => exact absurd rfl hl
  | s :: t =>
    by_cases ht : ∃ x ∈ t, s < x
    · obtain ⟨k, v, hget, heq, hlt, hmax, hfirst⟩ := argmaxAux_of_exists_lt t 1 0 s ht
      refine ⟨v, ?_, ?_, ?_⟩
      · show (s :: t).get? (np_argmax (s :: t)) = some v
        simp only [np_argmax, heq]
        rw [Nat.add_comm 1 k]
        simpa using hget
      · intro x hx
        rcases List.mem_cons.mp hx with rfl | hx
        · exact hlt.le
        · exact hmax x hx
      · intro j hj x hxj
        simp only [np_argmax, heq] at hj
        match j with
        | 0 =>
          simp only [List.get?_cons_zero, Option.some.injEq] at hxj
          exact hxj ▸ hlt
        | j + 1 =>
          exact hfirst j (by omega) x (by simpa using hxj)
    · push_neg at ht
      refine ⟨s, ?_, ?_, ?_⟩
      · show (s :: t).get? (np_argmax (s :: t)) = some s
        simp only [np_argmax, argmaxAux_of_forall_le t 1 0 s ht, List.get?_cons_zero]
      · intro x hx
        rcases List.mem_cons.mp hx with rfl | hx
        · exact le_refl x
        · exact ht x hx
      · intro j hj
        simp only [np_argmax, argmaxAux_of_forall_le t 1 0 s ht] at hj
        omega

/-- Indexing with a default returns the stored element when the index is in range. -/
lemma getD_of_get? : ∀ (l : List ℚ) (n : Nat) (v : ℚ), l.get? n = some v → l.getD n 0 = v := by
  intro l
  induction l with
  | nil => intro n v h; simp at h
  | cons a t ih =>
    intro n v h
    match n with
    | 0 =>
      simp only [List.get?_cons_zero, Option.some.injEq] at h
      simpa [List.getD_cons_zero] using h
    | n + 1 =>
      simp only [List.get?_cons_succ] at h
      rw [List.getD_cons_succ]
      exact ih n v h

/-- Looking a label up in the zip of a duplicate-free label list with a score list
returns the score at the same position as the label. This is the Python dict access
scores[emotion] on the dict built from zip(emotions, prediction). -/
lemma lookup_zip_get? (a : List String) : ∀ (b : List ℚ) (m : Nat) (ka : String) (v : ℚ),
    a.Nodup → a.get? m = some ka → b.get? m = some v →
    (a.zip b).lookup ka = some v := by
  induction a with
  | nil => intro b m ka v _ h _; simp at h
  | cons x a2 ih =>
    intro b m ka v hnd hka hv
    match b with
    | [] => simp at hv
    | y :: b2 =>
      match m with
      | 0 =>
        simp only [List.get?_cons_zero, Option.some.injEq] at hka hv
        subst hka; subst hv
        simp [List.lookup]
      | m + 1 =>
        simp only [List.get?_cons_succ] at hka hv
        have hmem : ka ∈ a2 := List.get?_mem hka
        have hne : (ka == x) = false := by
          have : ka ≠ x := fun h => (List.nodup_cons.mp hnd).1 (h ▸ hmem)
          exact beq_eq_false_iff_ne.mpr this
        simp only [List.zip_cons_cons, List.lookup, hne]
        exact ih b2 m ka v (List.nodup_cons.mp hnd).2 hka hv

/-- When no element of the list has strictly larger area than the accumulator, the
Python max fold keeps the accumulator. -/
lemma py_max_area_of_forall_le (l : List BBox) : ∀ acc : BBox,
    (∀ b ∈ l, b.area ≤ acc.area) → py_max_area acc l = acc := by
  induction l with
  | nil => intro acc _; rfl
  | cons b t ih =>
    intro acc h
    have hb : b.area ≤ acc.area := h b (List.mem_cons_self b t)
    simp only [py_max_area, if_neg (not_lt.mpr hb)]
    exact ih acc (fun x hx => h x (List.mem_cons_of_mem b hx))

/-- When some element of the list has strictly larger area than the accumulator, the
Python max fold returns the first element of maximal area. -/
lemma py_max_area_of_exists_lt (l : List BBox) : ∀ acc : BBox,
    (∃ b ∈ l, acc.area < b.area) →
    ∃ k v, l.get? k = some v ∧ py_max_area acc l = v ∧ acc.area < v.area ∧
      (∀ x ∈ l, x.area ≤ v.area) ∧
      (∀ j, j < k → ∀ x, l.get? j = some x → x.area < v.area) := by
  induction l with
  | nil => intro acc h; obtain ⟨x, hx, _⟩ := h; exact absurd hx (List.not_mem_nil x)
  | cons b t ih =>
    intro acc h
    by_cases hab : acc.area < b.area
    · simp only [py_max_area, if_pos hab]
      by_cases ht : ∃ x ∈ t, b.area < x.area
      · obtain ⟨k, v, hget, heq, hlt, hmax, hfirst⟩ := ih b ht
        refine ⟨k + 1, v, by simpa using hget, heq, hab.trans hlt, ?_, ?_⟩
        · intro x hx
          rcases List.mem_cons.mp hx with rfl | hx
          · exact hlt.le
          · exact hmax x hx
        · intro j hj x hxj
          match j with
          | 0 =>
            simp only [List.get?_cons_zero, Option.some.injEq] at hxj
            exact hxj ▸ hlt
          | j + 1 =>
            exact hfirst j (by omega) x (by simpa using hxj)
      · push_neg at ht
        refine ⟨0, b, rfl, py_max_area_of_forall_le t b ht, hab, ?_, ?_⟩
        · intro x hx
          rcases List.mem_cons.mp hx with rfl | hx
          · exact le_refl x.area
          · exact ht x hx
        · intro j hj; omega
    · have hble : b.area ≤ acc.area := not_lt.mp hab
      have ht : ∃ x ∈ t, acc.area < x.area := by
        obtain ⟨x, hx, hax⟩ := h
        rcases List.mem_cons.mp hx with rfl | hx
        · exact absurd hax hab
        · exact ⟨x, hx, hax⟩
      obtain ⟨k, v, hget, heq, hlt, hmax, hfirst⟩ := ih acc ht
      simp only [py_max_area, if_neg hab]
      refine ⟨k + 1, v, by simpa using hget, heq, hlt, ?_, ?_⟩
      · intro x hx
        rcases List.mem_cons.mp hx with rfl | hx
        · exact hble.trans hlt.le
        · exact hmax x hx
      · intro j hj x hxj
        match j with
        | 0 =>
          simp only [List.get?_cons_zero, Option.some.injEq] at hxj
          exact hxj ▸ (lt_of_le_of_lt hble hlt)
        | j + 1 =>
          exact hfirst j (by omega) x (by simpa using hxj)

/-- The box chosen by max(faces, key=area) from a nonempty list occurs in the list, has
maximal area, and every box at a strictly earlier position has strictly smaller area. -/
lemma py_max_area_spec (f0 : BBox) (rest : List BBox) :
    ∃ k b, (f0 :: rest).get? k = some b ∧ py_max_area f0 rest = b ∧
      (∀ x ∈ f0 :: rest, x.area ≤ b.area) ∧
      (∀ j, j < k → ∀ x, (f0 :: rest).get? j = some x → x.area < b.area) := by
  by_cases ht : ∃ x ∈ rest, f0.area < x.area
  · obtain ⟨k, v, hget, heq, hlt, hmax, hfirst⟩ := py_max_area_of_exists_lt rest f0 ht
    refine ⟨k + 1, v, by simpa using hget, heq, ?_, ?_⟩
    · intro x hx
      rcases List.mem_cons.mp hx with rfl | hx
      · exact hlt.le
      · exact hmax x hx
    · intro j hj x hxj
      match j with
      | 0 =>
        simp only [List.get?_cons_zero, Option.some.injEq] at hxj
        exact hxj ▸ hlt
      | j + 1 =>
        exact hfirst j (by omega) x (by simpa using hxj)
  · push_neg at ht
    refine ⟨0, f0, rfl, py_max_area_of_forall_le rest f0 ht, ?_, ?_⟩
    · intro x hx
      rcases List.mem_cons.mp hx with rfl | hx
      · exact le_refl x.area
      · exact ht x hx
    · intro j hj; omega

/-- Reference form of the sampled frame sequence: the first frame, then the sample of
what remains after skipping the next N - 1 frames. -/
def sampleSpec (N : Nat) : List Frame → List Frame
  | [] => []
  | f :: rest => f :: sampleSpec N (rest.drop (N - 1))
termination_by l => l.length
decreasing_by simp only [List.length_drop, List.length_cons]; omega

/-- The extraction loop only inspects the counter modulo the interval. -/
lemma extract_frames_loop_congr (N : Nat) (frames : List Frame) : ∀ c cc : Nat,
    c % N = cc % N → extract_frames_loop N frames c = extract_frames_loop N frames cc := by
  induction frames with
  | nil => intro c cc _; rfl
  | cons f rest ih =>
    intro c cc h
    simp only [extract_frames_loop]
    rw [h, ih (c + 1) (cc + 1) (Nat.ModEq.add_right 1 h)]

/-- Starting the loop k steps before the next multiple of the interval skips exactly the
next k frames. -/
lemma extract_frames_loop_skip (N : Nat) (hN : 0 < N) :
    ∀ (k : Nat), k < N → ∀ (rest : List Frame),
      extract_frames_loop N rest (N - k) = extract_frames_loop N (rest.drop k) 0 := by
  intro k
  induction k with
  | zero =>
    intro _ rest
    rw [List.drop_zero, Nat.sub_zero]
    exact extract_frames_loop_congr N rest N 0 (by simp)
  | succ k ih =>
    intro hk rest
    cases rest with
    | nil => simp [extract_frames_loop]
    | cons f rest2 =>
      have h1 : ¬ (N = 0) := by omega
      have h2 : (N - (k + 1)) % N = N - (k + 1) := Nat.mod_eq_of_lt (by omega)
      have h3 : ¬ (N - (k + 1)) % N = 0 := by omega
      simp only [extract_frames_loop, if_neg h1, if_neg h3]
      have h4 : N - (k + 1) + 1 = N - k := by omega
      rw [h4, ih (by omega) rest2]
      simp

/-- With a positive interval the extraction loop started at counter zero never raises
and returns exactly the reference sample. -/
lemma extract_frames_loop_eq_sampleSpec (N : Nat) (hN : 0 < N) :
    ∀ (n : Nat) (frames : List Frame), frames.length ≤ n →
      extract_frames_loop N frames 0 = Except.ok (sampleSpec N frames) := by
  intro n
  induction n with
  | zero =>
    intro frames h
    have : frames = [] := List.eq_nil_of_length_eq_zero (Nat.le_zero.mp h)
    subst this
    simp [extract_frames_loop, sampleSpec]
  | succ n ih =>
    intro frames h
    cases frames with
    | nil => simp [extract_frames_loop, sampleSpec]
    | cons f rest =>
      have h1 : ¬ (N = 0) := by omega
      simp only [extract_frames_loop, if_neg h1, if_pos (Nat.zero_mod N)]
      have hskip : extract_frames_loop N rest 1 = extract_frames_loop N (rest.drop (N - 1)) 0 := by
        have := extract_frames_loop_skip N hN (N - 1) (by omega) rest
        rwa [(by omega : N - (N - 1) = 1)] at this
      rw [hskip, ih (rest.drop (N - 1)) (by simp only [List.length_drop]; simp at h; omega)]
      rw [sampleSpec]
      rfl

/-- The reference sample of F frames at stride N has exactly the ceiling of F / N
elements. -/
lemma sampleSpec_length (N : Nat) (hN : 0 < N) :
    ∀ (n : Nat) (frames : List Frame), frames.length ≤ n →
      (sampleSpec N frames).length = (frames.length + N - 1) / N := by
  intro n
  induction n with
  | zero =>
    intro frames h
    have : frames = [] := List.eq_nil_of_length_eq_zero (Nat.le_zero.mp h)
    subst this
    simp [sampleSpec, Nat.div_eq_of_lt (by omega : N - 1 < N)]
  | succ n ih =>
    intro frames h
    cases frames with
    | nil => simp [sampleSpec, Nat.div_eq_of_lt (by omega : N - 1 < N)]
    | cons f rest =>
      rw [sampleSpec]
      simp only [List.length_cons]
      rw [ih (rest.drop (N - 1)) (by simp only [List.length_drop]; simp at h; omega)]
      simp only [List.length_drop]
      have hcase : rest.length - (N - 1) + N - 1 = rest.length ∨
          (rest.length - (N - 1) + N - 1 = N - 1 ∧ rest.length < N) := by omega
      have hstep : rest.length + 1 + N - 1 = rest.length + N := by omega
      rw [hstep, Nat.add_div_right rest.length hN]
      rcases hcase with hc | hc
      · rw [hc]
      · rw [hc.1, Nat.div_eq_of_lt (by omega : N - 1 < N),
          Nat.div_eq_of_lt (by omega : rest.length < N)]

/-- The element at position k of the reference sample is the frame at original position
k times N. -/
lemma sampleSpec_get? (N : Nat) (hN : 0 < N) :
    ∀ (n : Nat) (frames : List Frame), frames.length ≤ n →
      ∀ k, k < (sampleSpec N frames).length →
        (sampleSpec N frames).get? k = frames.get? (k * N) := by
  intro n
  induction n with
  | zero =>
    intro frames h
    have : frames = [] := List.eq_nil_of_length_eq_zero (Nat.le_zero.mp h)
    subst this
    intro k hk
    simp [sampleSpec] at hk
  | succ n ih =>
    intro frames h
    cases frames with
    | nil => intro k hk; simp [sampleSpec] at hk
    | cons f rest =>
      intro k hk
      rw [sampleSpec] at hk ⊢
      match k with
      | 0 => simp
      | k + 1 =>
        simp only [List.get?_cons_succ]
        simp only [List.length_cons, Nat.succ_lt_succ_iff] at hk
        rw [ih (rest.drop (N - 1)) (by simp only [List.length_drop]; simp at h; omega) k hk]
        rw [List.get?_drop]
        have harith : (k + 1) * N = (N - 1 + k * N) + 1 := by
          rw [Nat.succ_mul]
          omega
        rw [harith, List.get?_cons_succ]

/-- C1: for every valid face image on which classification succeeds (the model returns
a score vector whose length matches the configured label set), detect_emotion returns
the label at the first maximal score in configured order, confidence equal to that
label's score, no error key, and a scores mapping whose keys are exactly the configured
label set, with scores[emotion] = confidence. -/
theorem detect_emotion_spec (d : EmotionDetector) (face_img : Frame) (pred : List ℚ)
    (hpred : d.predict face_img = Except.ok pred)
    (hne : pred ≠ [])
    (hlen : pred.length = d.keras_emotions.length)
    (hnd : d.keras_emotions.Nodup) :
    ∃ e c, detect_emotion d face_img =
        { emotion := e, confidence := c,
          scores := some (d.keras_emotions.zip pred), error := none } ∧
      d.keras_emotions.get? (np_argmax pred) = some e ∧
      pred.get? (np_argmax pred) = some c ∧
      (∀ x ∈ pred, x ≤ c) ∧
      (∀ j, j < np_argmax pred → ∀ x, pred.get? j = some x → x < c) ∧
      (d.keras_emotions.zip pred).map Prod.fst = d.keras_emotions ∧
      (d.keras_emotions.zip pred).lookup e = some c := by
  obtain ⟨v, hv, hmax, hfirst⟩ := np_argmax_spec pred hne
  have harg : np_argmax pred < pred.length := by
    rcases Nat.lt_or_ge (np_argmax pred) pred.length with h | h
    · exact h
    · rw [List.get?_eq_none.mpr h] at hv; exact absurd hv (by simp)
  have hargE : np_argmax pred < d.keras_emotions.length := hlen ▸ harg
  obtain ⟨e, he⟩ : ∃ e, d.keras_emotions.get? (np_argmax pred) = some e := by
    cases hE : d.keras_emotions.get? (np_argmax pred) with
    | none => rw [List.get?_eq_none] at hE; omega
    | some e => exact ⟨e, rfl⟩
  obtain ⟨p0, ps, rfl⟩ : ∃ p0 ps, pred = p0 :: ps := by
    cases pred with
    | nil => exact absurd rfl hne
    | cons p0 ps => exact ⟨p0, ps, rfl⟩
  refine ⟨e, v, ?_, he, hv, hmax, hfirst,
    List.map_fst_zip d.keras_emotions (p0 :: ps) (le_of_eq hlen.symm),
    lookup_zip_get? d.keras_emotions (p0 :: ps) (np_argmax (p0 :: ps)) e v hnd he hv⟩
  rw [detect_emotion, detect_emotion_body, hpred]
  simp only [he]
  rw [getD_of_get? (p0 :: ps) (np_argmax (p0 :: ps)) v hv]

/-- A face image used to instantiate the classification theorems. -/
def wFace : Frame := Frame.mk [[(10, 20, 30)]]

/-- A score vector of the configured width whose maximum sits at position three. -/
def wScores : List ℚ := [0, 0, 0, 1, 0, 0, 0, 0]

/-- A detector whose black boxes are the constant functions: one face box and the
wScores output vector. -/
def wDetector : EmotionDetector :=
  { keras_emotions := default_keras_emotions
    cascade := fun _ => Except.ok [BBox.mk 0 0 1 1]
    predict := fun _ => Except.ok wScores }

/-- Witness for C1: the classification theorem applied to the concrete detector. -/
theorem detect_emotion_spec_witness :
    ∃ e c, detect_emotion wDetector wFace =
        { emotion := e, confidence := c,
          scores := some (wDetector.keras_emotions.zip wScores), error := none } ∧
      wDetector.keras_emotions.get? (np_argmax wScores) = some e ∧
      wScores.get? (np_argmax wScores) = some c ∧
      (∀ x ∈ wScores, x ≤ c) ∧
      (∀ j, j < np_argmax wScores → ∀ x, wScores.get? j = some x → x < c) ∧
      (wDetector.keras_emotions.zip wScores).map Prod.fst = wDetector.keras_emotions ∧
      (wDetector.keras_emotions.zip wScores).lookup e = some c :=
  detect_emotion_spec wDetector wFace wScores rfl (by decide)
    (by decide) (by decide)

/-- C2: for every interval N at least one and every openable video of F frames,
extract_frames succeeds and yields exactly the ceiling of F divided by N frames, the
k-th yielded frame being the frame at original index k times N, hence indices 0, N, 2N
and so on in ascending order. -/
theorem extract_frames_spec (frames : List Frame) (N : Nat) (hN : 1 ≤ N) :
    ∃ out, extract_frames (some frames) N = Except.ok out ∧
      out.length = frames.length ⌈/⌉ N ∧
      ∀ k, k < out.length → out.get? k = frames.get? (k * N) := by
  refine ⟨sampleSpec N frames, ?_, ?_, ?_⟩
  · exact extract_frames_loop_eq_sampleSpec N hN frames.length frames le_rfl
  · rw [Nat.ceilDiv_eq_add_pred_div]
    exact sampleSpec_length N hN frames.length frames le_rfl
  · exact sampleSpec_get? N hN frames.length frames le_rfl

/-- A three-frame video used to instantiate the sampling theorems. -/
def wVideo : List Frame := [Frame.mk [], Frame.mk [[(1, 1, 1)]], Frame.mk [[(2, 2, 2)]]]

/-- Witness for C2: the sampling theorem applied to a three-frame video at interval
two. -/
theorem extract_frames_spec_witness :
    ∃ out, extract_frames (some wVideo) 2 = Except.ok out ∧
      out.length = wVideo.length ⌈/⌉ 2 ∧
      ∀ k, k < out.length → out.get? k = wVideo.get? (k * 2) :=
  extract_frames_spec wVideo 2 (by decide)

/-- C3: when the face locator returns at least one bounding box, analyze_frame selects
for classification the box of maximal width times height, ties resolved to the first
maximal box in the locator's return order, and classifies the crop of exactly that
box. -/
theorem analyze_frame_selects_largest (d : EmotionDetector) (frame : Frame) (idx : Nat)
    (f0 : BBox) (rest : List BBox)
    (hfaces : detect_faces d frame = Except.ok (f0 :: rest)) :
    ∃ k b, (f0 :: rest).get? k = some b ∧ py_max_area f0 rest = b ∧
      (∀ x ∈ f0 :: rest, x.area ≤ b.area) ∧
      (∀ j, j < k → ∀ x, (f0 :: rest).get? j = some x → x.area < b.area) ∧
      ((crop_face frame b).size ≠ 0 →
        analyze_frame d frame idx = withIndex idx (detect_emotion d (crop_face frame b))) := by
  obtain ⟨k, b, hget, heq, hmax, hfirst⟩ := py_max_area_spec f0 rest
  refine ⟨k, b, hget, heq, hmax, hfirst, ?_⟩
  intro hsz
  rw [analyze_frame, hfaces]
  simp only [heq]
  rw [if_neg hsz]

/-- Bounding boxes of areas 100, 400 and 250 as in the specification example. -/
def wBoxes : List BBox := [BBox.mk 0 0 10 10, BBox.mk 5 5 20 20, BBox.mk 2 2 25 10]

/-- A detector whose locator returns the three example boxes. -/
def wDetector3 : EmotionDetector :=
  { keras_emotions := default_keras_emotions
    cascade := fun _ => Except.ok wBoxes
    predict := fun _ => Except.ok wScores }

/-- Witness for C3: among boxes of areas 100, 400 and 250 the theorem selects a box, and
instantiation shows it applies at this concrete input. -/
theorem analyze_frame_selects_largest_witness :
    ∃ k b, ([BBox.mk 0 0 10 10, BBox.mk 5 5 20 20, BBox.mk 2 2 25 10]).get? k = some b ∧
      py_max_area (BBox.mk 0 0 10 10) [BBox.mk 5 5 20 20, BBox.mk 2 2 25 10] = b ∧
      (∀ x ∈ [BBox.mk 0 0 10 10, BBox.mk 5 5 20 20, BBox.mk 2 2 25 10], x.area ≤ b.area) ∧
      (∀ j, j < k → ∀ x,
        ([BBox.mk 0 0 10 10, BBox.mk 5 5 20 20, BBox.mk 2 2 25 10]).get? j = some x →
          x.area < b.area) ∧
      ((crop_face wFace b).size ≠ 0 →
        analyze_frame wDetector3 wFace 0 =
          withIndex 0 (detect_emotion wDetector3 (crop_face wFace b))) ∧
      py_max_area (BBox.mk 0 0 10 10) [BBox.mk 5 5 20 20, BBox.mk 2 2 25 10] =
        BBox.mk 5 5 20 20 :=
  have h := analyze_frame_selects_largest wDetector3 wFace 0 (BBox.mk 0 0 10 10)
    [BBox.mk 5 5 20 20, BBox.mk 2 2 25 10] rfl
  have hsel : py_max_area (BBox.mk 0 0 10 10) [BBox.mk 5 5 20 20, BBox.mk 2 2 25 10] =
      BBox.mk 5 5 20 20 := by decide
  match h with
  | ⟨k, b, h1, h2, h3, h4, h5⟩ => ⟨k, b, h1, h2, h3, h4, h5, hsel⟩

/-- C4: a frame with zero detected faces, and likewise a frame whose selected crop has
zero area, yields exactly the record with emotion no_face_detected, confidence zero, no
scores key and no error key. -/
theorem analyze_frame_no_face (d : EmotionDetector) (frame : Frame) (idx : Nat) :
    (detect_faces d frame = Except.ok [] →
      analyze_frame d frame idx =
        { frame_index := idx, emotion := "no_face_detected", confidence := 0,
          scores := none, error := none }) ∧
    (∀ f0 rest, detect_faces d frame = Except.ok (f0 :: rest) →
      (crop_face frame (py_max_area f0 rest)).size = 0 →
      analyze_frame d frame idx =
        { frame_index := idx, emotion := "no_face_detected", confidence := 0,
          scores := none, error := none }) := by
  constructor
  · intro h
    rw [analyze_frame, h]
  · intro f0 rest h hsz
    rw [analyze_frame, h]
    simp only [if_pos hsz]

/-- A detector whose locator finds no face in any frame. -/
def wDetectorNoFace : EmotionDetector :=
  { keras_emotions := default_keras_emotions
    cascade := fun _ => Except.ok []
    predict := fun _ => Except.ok wScores }

/-- Witness for C4: the no-face theorem applied to a detector that reports no faces. -/
theorem analyze_frame_no_face_witness :
    analyze_frame wDetectorNoFace wFace 7 =
      { frame_index := 7, emotion := "no_face_detected", confidence := 0,
        scores := none, error := none } :=
  (analyze_frame_no_face wDetectorNoFace wFace 7).1 rfl

/-- Length of the analyze_frames loop output: one result per input frame. -/
lemma analyze_frames_go_length (d : EmotionDetector) :
    ∀ (idx : Nat) (frames : List Frame),
      (analyze_frames_go d idx frames).length = frames.length := by
  intro idx frames
  induction frames generalizing idx with
  | nil => rfl
  | cons f rest ih => simp [analyze_frames_go, ih]

/-- The element at position i of the analyze_frames loop output is the analysis of the
input frame at position i with index base plus i. -/
lemma analyze_frames_go_get? (d : EmotionDetector) :
    ∀ (frames : List Frame) (idx i : Nat),
      (analyze_frames_go d idx frames).get? i =
        (frames.get? i).map (fun f => analyze_frame d f (idx + i)) := by
  intro frames
  induction frames with
  | nil => intro idx i; rfl
  | cons f rest ih =>
    intro idx i
    match i with
    | 0 => simp [analyze_frames_go]
    | i + 1 =>
      simp only [analyze_frames_go, List.get?_cons_succ]
      rw [ih (idx + 1) i]
      have : idx + 1 + i = idx + (i + 1) := by omega
      rw [this]

/-- The frame_index field of every analyze_frame result equals the index argument. -/
lemma analyze_frame_index (d : EmotionDetector) (f : Frame) (i : Nat) :
    (analyze_frame d f i).frame_index = i := by
  rw [analyze_frame]
  cases hdf : detect_faces d f with
  | error e => rfl
  | ok faces =>
    cases faces with
    | nil => rfl
    | cons f0 rest =>
      by_cases hsz : (crop_face f (py_max_area f0 rest)).size = 0
      · simp only [if_pos hsz]
      · simp only [if_neg hsz]
        rfl

/-- C5 helper is shared with C7; this is the claim C7 theorem: analyze_frames returns
exactly one result per input frame, in input order, the result at position i being the
independent analysis of the input frame at position i, with frame_index equal to i. -/
theorem analyze_frames_spec (d : EmotionDetector) (frames : List Frame) :
    (analyze_frames d frames).length = frames.length ∧
    (∀ i f, frames.get? i = some f →
      (analyze_frames d frames).get? i = some (analyze_frame d f i)) ∧
    (∀ i r, (analyze_frames d frames).get? i = some r → r.frame_index = i) := by
  refine ⟨analyze_frames_go_length d 0 frames, ?_, ?_⟩
  · intro i f hf
    rw [analyze_frames, analyze_frames_go_get? d frames 0 i, hf]
    simp
  · intro i r hr
    rw [analyze_frames, analyze_frames_go_get? d frames 0 i] at hr
    cases hf : frames.get? i with
    | none => rw [hf] at hr; simp at hr
    | some f =>
      rw [hf] at hr
      have hfr := Option.some.inj hr
      rw [← hfr, analyze_frame_index]
      omega

/-- Witness for C7: the batch theorem applied to the three-frame video, including one
inner implication discharged at a concrete position. -/
theorem analyze_frames_spec_witness :
    (analyze_frames wDetector wVideo).length = wVideo.length ∧
    (analyze_frames wDetector wVideo).get? 1 =
      some (analyze_frame wDetector (Frame.mk [[(1, 1, 1)]]) 1) :=
  ⟨(analyze_frames_spec wDetector wVideo).1,
   (analyze_frames_spec wDetector wVideo).2.1 1 (Frame.mk [[(1, 1, 1)]]) rfl⟩

/-- C5: every exception raised by face detection or by preprocessing and inference is
caught inside analyze_frame and surfaced as a FrameResult with emotion error, confidence
zero and the exception message, and analyze_frames still produces exactly one result per
frame, so one failure never aborts the batch. -/
theorem analyze_frame_error_handling (d : EmotionDetector) (frame : Frame) (idx : Nat) :
    (∀ e, detect_faces d frame = Except.error e →
      analyze_frame d frame idx =
        { frame_index := idx, emotion := "error", confidence := 0,
          scores := none, error := some e }) ∧
    (∀ f0 rest e, detect_faces d frame = Except.ok (f0 :: rest) →
      (crop_face frame (py_max_area f0 rest)).size ≠ 0 →
      d.predict (crop_face frame (py_max_area f0 rest)) = Except.error e →
      analyze_frame d frame idx =
        { frame_index := idx, emotion := "error", confidence := 0,
          scores := none, error := some e }) ∧
    (∀ frames : List Frame, (analyze_frames d frames).length = frames.length) := by
  refine ⟨?_, ?_, fun frames => analyze_frames_go_length d 0 frames⟩
  · intro e h
    rw [analyze_frame, h]
  · intro f0 rest e h hsz hp
    rw [analyze_frame, h]
    simp only [if_neg hsz]
    rw [withIndex, detect_emotion, detect_emotion_body, hp]

/-- A detector whose black boxes both raise. -/
def wDetectorErr : EmotionDetector :=
  { keras_emotions := default_keras_emotions
    cascade := fun _ => Except.error "cvtColor failed"
    predict := fun _ => Except.error "resize failed" }

/-- Witness for C5: the error-handling theorem applied to a detector whose locator
raises. -/
theorem analyze_frame_error_handling_witness :
    analyze_frame wDetectorErr wFace 3 =
      { frame_index := 3, emotion := "error", confidence := 0,
        scores := none, error := some "cvtColor failed" } :=
  (analyze_frame_error_handling wDetectorErr wFace 3).1 "cvtColor failed" rfl

/-- C6: every record a job takes in the store has data set exactly when its status is
terminal; submission writes queued with no data, _run writes done with the analysis
list on success and error with the error payload on any exception, including a video
that cannot be opened, and the trace contains exactly one terminal write. -/
theorem job_store_invariant (d : EmotionDetector) (video : Option (List Frame)) (interval : Nat) :
    (∀ r ∈ jobTrace d video interval,
      (r.data ≠ none ↔ (r.status = "done" ∨ r.status = "error"))) ∧
    submitRecord = { status := "queued", data := none } ∧
    (∀ rs, analyze_video d video interval = Except.ok rs →
      runRecord d video interval = { status := "done", data := some (JobData.results rs) }) ∧
    (∀ e, analyze_video d video interval = Except.error e →
      runRecord d video interval = { status := "error", data := some (JobData.errorPayload e) }) ∧
    runRecord d none interval =
      { status := "error", data := some (JobData.errorPayload "Cannot open video") } ∧
    ((jobTrace d video interval).countP
      (fun r => r.status == "done" || r.status == "error")) = 1 := by
  refine ⟨?_, rfl, ?_, ?_, rfl, ?_⟩
  · intro r hr
    simp only [jobTrace, List.mem_cons, List.not_mem_nil, or_false] at hr
    rcases hr with rfl | rfl
    · simp [submitRecord]
    · rw [runRecord]
      cases h : analyze_video d video interval with
      | ok rs => simp
      | error e => simp
  · intro rs h
    rw [runRecord, h]
  · intro e h
    rw [runRecord, h]
  · rw [jobTrace, runRecord]
    cases h : analyze_video d video interval with
    | ok rs => simp [submitRecord, List.countP, List.countP.go]
    | error e => simp [submitRecord, List.countP, List.countP.go]

/-- Witness for C6: the job invariant theorem applied to the concrete detector and an
unopenable video. -/
theorem job_store_invariant_witness :
    runRecord wDetector none 5 =
      { status := "error", data := some (JobData.errorPayload "Cannot open video") } :=
  (job_store_invariant wDetector none 5).2.2.2.2.1

/-- With a positive interval the events of a fully driven generator body are the yields
of the sampled frames followed by the single release. -/
lemma extract_frames_events_eq (N : Nat) (hN : 0 < N) :
    ∀ (frames : List Frame) (c : Nat), ∃ l, extract_frames_loop N frames c = Except.ok l ∧
      extract_frames_events N frames c = l.map GenEvent.yielded ++ [GenEvent.released] := by
  intro frames
  induction frames with
  | nil => intro c; exact ⟨[], rfl, rfl⟩
  | cons f rest ih =>
    intro c
    obtain ⟨l, hl, he⟩ := ih (c + 1)
    by_cases hc : c % N = 0
    · refine ⟨f :: l, ?_, ?_⟩
      · simp only [extract_frames_loop, if_neg (by omega : ¬ N = 0), if_pos hc, hl]
        rfl
      · simp only [extract_frames_events, if_neg (by omega : ¬ N = 0), if_pos hc, he]
        rfl
    · refine ⟨l, ?_, ?_⟩
      · simp only [extract_frames_loop, if_neg (by omega : ¬ N = 0), if_neg hc, hl]
      · simp only [extract_frames_events, if_neg (by omega : ¬ N = 0), if_neg hc, he]

/-- Abandoning the generator after k of its yields executes exactly those k yields and
never the release event, because no cleanup code runs at the suspended yield. -/
lemma abandonEvents_yields (l : List Frame) : ∀ k, k ≤ l.length →
    abandonEvents (l.map GenEvent.yielded ++ [GenEvent.released]) k =
      (l.take k).map GenEvent.yielded := by
  induction l with
  | nil =>
    intro k hk
    have : k = 0 := by simpa using hk
    subst this
    rfl
  | cons f rest ih =>
    intro k hk
    match k with
    | 0 => rfl
    | k + 1 =>
      simp only [List.map_cons, List.cons_append, abandonEvents, List.take_succ_cons,
        List.append_eq]
      rw [ih k (by simpa using hk)]

/-- Counterexample to C8 as stated: on a two-frame video sampled at interval one, a
consumer that abandons the generator after the first yielded frame never executes the
release, since the generator body has no try-finally. -/
theorem extract_frames_abandon_counterexample :
    GenEvent.released ∉
      abandonEvents (extract_frames_events 1 [Frame.mk [], Frame.mk [[(1, 1, 1)]]] 0) 1 := by
  decide

/-- C8 amended: the generator executes the release as its final event on normal
exhaustion, but on early abandonment after at most the number of sampled frames the
release never executes; the only consumer in this repository, analyze_video, always
exhausts the sequence. -/
theorem extract_frames_release_paths (frames : List Frame) (N : Nat) (hN : 0 < N) :
    ∃ l, extract_frames_loop N frames 0 = Except.ok l ∧
      (extract_frames_events N frames 0).getLast? = some GenEvent.released ∧
      ∀ k, k ≤ l.length →
        abandonEvents (extract_frames_events N frames 0) k = (l.take k).map GenEvent.yielded ∧
        GenEvent.released ∉ abandonEvents (extract_frames_events N frames 0) k := by
  obtain ⟨l, hl, he⟩ := extract_frames_events_eq N hN frames 0
  refine ⟨l, hl, ?_, ?_⟩
  · rw [he, List.getLast?_concat]
  · intro k hk
    rw [he]
    refine ⟨abandonEvents_yields l k hk, ?_⟩
    rw [abandonEvents_yields l k hk]
    intro hmem
    rw [List.mem_map] at hmem
    obtain ⟨a, ha1, ha⟩ := hmem
    exact GenEvent.noConfusion ha

/-- Witness for the amended C8 theorem at the three-frame video and interval two. -/
theorem extract_frames_release_paths_witness :
    ∃ l, extract_frames_loop 2 wVideo 0 = Except.ok l ∧
      (extract_frames_events 2 wVideo 0).getLast? = some GenEvent.released ∧
      ∀ k, k ≤ l.length →
        abandonEvents (extract_frames_events 2 wVideo 0) k = (l.take k).map GenEvent.yielded ∧
        GenEvent.released ∉ abandonEvents (extract_frames_events 2 wVideo 0) k :=
  extract_frames_release_paths wVideo 2 (by decide)

/-- A detector whose model emits a raw score above one, as an unnormalized output head
would; nothing in the source prevents this. -/
def wDetectorBig : EmotionDetector :=
  { keras_emotions := default_keras_emotions
    cascade := fun _ => Except.ok [BBox.mk 0 0 1 1]
    predict := fun _ => Except.ok [2, 0, 0, 0, 0, 0, 0, 0] }

/-- Counterexample to C9 as stated: the code takes confidence directly from the model
output vector without clamping or normalizing, so a score above one becomes a
FrameResult confidence above one. -/
theorem analyze_frame_confidence_counterexample :
    (analyze_frame wDetectorBig wFace 0).confidence = 2 ∧
    ¬ (analyze_frame wDetectorBig wFace 0).confidence ≤ 1 := by
  constructor
  · decide
  · decide

/-- Equation for detect_emotion when the preprocessing or inference black box raises. -/
lemma detect_emotion_eq_error (d : EmotionDetector) (face : Frame) (e : String)
    (hp : d.predict face = Except.error e) :
    detect_emotion d face =
      { emotion := "error", confidence := 0, scores := none, error := some e } := by
  rw [detect_emotion, detect_emotion_body, hp]

/-- Equation for detect_emotion when the model returns an empty score vector. -/
lemma detect_emotion_eq_nil (d : EmotionDetector) (face : Frame)
    (hp : d.predict face = Except.ok []) :
    detect_emotion d face =
      { emotion := "error", confidence := 0, scores := none,
        error := some "attempt to get argmax of an empty sequence" } := by
  rw [detect_emotion, detect_emotion_body, hp]

/-- Equation for detect_emotion when the argmax index falls outside the configured
label list. -/
lemma detect_emotion_eq_oob (d : EmotionDetector) (face : Frame) (p0 : ℚ) (ps : List ℚ)
    (hp : d.predict face = Except.ok (p0 :: ps))
    (hE : d.keras_emotions.get? (np_argmax (p0 :: ps)) = none) :
    detect_emotion d face =
      { emotion := "error", confidence := 0, scores := none,
        error := some "list index out of range" } := by
  rw [detect_emotion, detect_emotion_body, hp]
  simp only [hE]

/-- Equation for detect_emotion on a nonempty score vector whose argmax index lies
inside the configured label list. -/
lemma detect_emotion_eq_ok (d : EmotionDetector) (face : Frame) (p0 : ℚ) (ps : List ℚ)
    (emo : String)
    (hp : d.predict face = Except.ok (p0 :: ps))
    (hE : d.keras_emotions.get? (np_argmax (p0 :: ps)) = some emo) :
    detect_emotion d face =
      { emotion := emo, confidence := (p0 :: ps).getD (np_argmax (p0 :: ps)) 0,
        scores := some (d.keras_emotions.zip (p0 :: ps)), error := none } := by
  rw [detect_emotion, detect_emotion_body, hp]
  simp only [hE]

/-- Confidence returned by detect_emotion lies in [0, 1] whenever every score vector
the model can return for this face has entries in [0, 1]; all error outcomes carry
confidence zero. -/
lemma detect_emotion_confidence_range (d : EmotionDetector) (face : Frame)
    (hpred : ∀ pred, d.predict face = Except.ok pred → ∀ s ∈ pred, 0 ≤ s ∧ s ≤ 1) :
    0 ≤ (detect_emotion d face).confidence ∧ (detect_emotion d face).confidence ≤ 1 := by
  cases hp : d.predict face with
  | error e =>
    rw [detect_emotion_eq_error d face e hp]
    exact ⟨le_refl 0, zero_le_one⟩
  | ok pred =>
    cases pred with
    | nil =>
      rw [detect_emotion_eq_nil d face hp]
      exact ⟨le_refl 0, zero_le_one⟩
    | cons p0 ps =>
      cases hE : d.keras_emotions.get? (np_argmax (p0 :: ps)) with
      | none =>
        rw [detect_emotion_eq_oob d face p0 ps hp hE]
        exact ⟨le_refl 0, zero_le_one⟩
      | some emo =>
        rw [detect_emotion_eq_ok d face p0 ps emo hp hE]
        obtain ⟨v, hv, hmax, hfirst⟩ := np_argmax_spec (p0 :: ps) (by simp)
        show 0 ≤ (p0 :: ps).getD (np_argmax (p0 :: ps)) 0 ∧
          (p0 :: ps).getD (np_argmax (p0 :: ps)) 0 ≤ 1
        rw [getD_of_get? (p0 :: ps) (np_argmax (p0 :: ps)) v hv]
        exact hpred (p0 :: ps) hp v (List.get?_mem hv)

/-- C9 amended: every FrameResult produced by analyze_frame has confidence in the
closed interval [0, 1], provided every score vector the model can return has entries in
[0, 1]; the fallback and error results carry confidence zero unconditionally, and the
code itself never clamps or normalizes an inference score. -/
theorem analyze_frame_confidence_range (d : EmotionDetector) (frame : Frame) (idx : Nat)
    (hpred : ∀ face pred, d.predict face = Except.ok pred → ∀ s ∈ pred, 0 ≤ s ∧ s ≤ 1) :
    0 ≤ (analyze_frame d frame idx).confidence ∧ (analyze_frame d frame idx).confidence ≤ 1 := by
  rw [analyze_frame]
  cases hdf : detect_faces d frame with
  | error e => exact ⟨le_refl 0, zero_le_one⟩
  | ok faces =>
    cases faces with
    | nil => exact ⟨le_refl 0, zero_le_one⟩
    | cons f0 rest =>
      by_cases hsz : (crop_face frame (py_max_area f0 rest)).size = 0
      · simp only [if_pos hsz]
        exact ⟨le_refl 0, zero_le_one⟩
      · simp only [if_neg hsz]
        exact detect_emotion_confidence_range d (crop_face frame (py_max_area f0 rest))
          (fun pred hp s hs => hpred (crop_face frame (py_max_area f0 rest)) pred hp s hs)

/-- Witness for the amended C9 theorem: the concrete detector returns scores inside
[0, 1], so the analyzed confidence lands in [0, 1]. -/
theorem analyze_frame_confidence_range_witness :
    0 ≤ (analyze_frame wDetector wFace 0).confidence ∧
      (analyze_frame wDetector wFace 0).confidence ≤ 1 :=
  analyze_frame_confidence_range wDetector wFace 0 (by
    intro face pred h
    injection h with h2
    subst h2
    decide)

/-- C10: the analysis route accepts every frame_interval value without validation and
records a queued job, and for interval zero on an openable video with at least one
frame the modulo in the sampling loop raises ZeroDivisionError inside the worker, so
the job terminates with status error instead of being rejected at submission. -/
theorem interval_zero_not_validated (d : EmotionDetector) (f : Frame) (fs : List Frame) :
    (∀ N : Nat, analyze_video_route true N = some { record := submitRecord, interval := N }) ∧
    submitRecord.status = "queued" ∧
    extract_frames (some (f :: fs)) 0 = Except.error "integer division or modulo by zero" ∧
    runRecord d (some (f :: fs)) 0 =
      { status := "error",
        data := some (JobData.errorPayload "integer division or modulo by zero") } := by
  exact ⟨fun N => rfl, rfl, rfl, rfl⟩

/-- Witness for C10 at a one-frame video. -/
theorem interval_zero_not_validated_witness :
    extract_frames (some [Frame.mk []]) 0 = Except.error "integer division or modulo by zero" ∧
    runRecord wDetector (some [Frame.mk []]) 0 =
      { status := "error",
        data := some (JobData.errorPayload "integer division or modulo by zero") } :=
  ⟨(interval_zero_not_validated wDetector (Frame.mk []) []).2.2.1,
   (interval_zero_not_validated wDetector (Frame.mk []) []).2.2.2⟩

end FERBac
